import Mathlib

/-
Shallow embedding of the amortization engine of `src/app.py` (the
"BudgetBridge" loan calculator) and proofs about it.

The Python source works on IEEE floats; the embedding models that
arithmetic as exact field arithmetic.  The schedule engine (payment
formula, schedule loop, cumulative columns, rounding view, input gate) is
embedded generically over a `LinearOrderedField` and instantiated at `ℚ`
for executable claims; the rate-conversion step uses fractional
exponents and is therefore embedded over `ℝ` with `Real.rpow` (Python's
`**` on nonnegative floats).

Source mapping:
  * `effective_principal`  — app.py line 56 (`max(0.0, principal - deposit)`)
  * `freq_map`, `periods_per_year`, `total_months` — app.py lines 100-102
  * `monthly_rate`         — app.py lines 105-111
  * `monthly_payment`      — app.py lines 114-119
  * `scheduleAux` / `schedule_rows` — the loop of app.py lines 126-148
  * `cumsum`, `amort_table` — app.py lines 150-152 (pandas `cumsum`)
  * `round2` / `display_table` — app.py lines 159-163 (`df.round(2)`,
    numpy/pandas round uses round-half-to-even)
  * `run_app`              — the gate of app.py lines 94-96 plus the
    calculation pipeline (lines 98-163)
-/

namespace LoanCalc

/-- Compounding frequency selector, app.py line 59. -/
inductive Compounding
  | Monthly
  | Quarterly
  | Annually
deriving DecidableEq

/-- App.py line 100: `freq_map = {"Monthly":12, "Quarterly":4, "Annually":1}`. -/
def freq_map : Compounding → ℕ
  | Compounding.Monthly => 12
  | Compounding.Quarterly => 4
  | Compounding.Annually => 1

/-- App.py line 101: `periods_per_year = freq_map.get(compounding, 12)`.
(The value is computed by the app but never used afterwards.) -/
def periods_per_year (compounding : Compounding) : ℕ :=
  freq_map compounding

/-- App.py line 102: `total_months = int(duration_years * 12)`. -/
def total_months (duration_years : ℕ) : ℕ :=
  duration_years * 12

/-- App.py lines 105-111.  Note that Python's `**` is right-associative, so
line 109, `(1 + annual_rate) ** (1/4) ** (1/3)`, parses as
`(1 + annual_rate) ** ((1/4) ** (1/3))`. -/
noncomputable def monthly_rate (interest_rate : ℝ) (compounding : Compounding) : ℝ :=
  let annual_rate : ℝ := interest_rate / 100
  match compounding with
  | Compounding.Monthly => (1 + annual_rate) ^ ((1 : ℝ) / 12) - 1
  | Compounding.Quarterly => (1 + annual_rate) ^ (((1 : ℝ) / 4) ^ ((1 : ℝ) / 3)) - 1
  | Compounding.Annually => (1 + annual_rate) ^ ((1 : ℝ) / 12) - 1

/-- One row appended by the loop of app.py lines 140-146. -/
structure Entry (α : Type*) where
  month : ℕ
  payment : α
  principal : α
  interest : α
  balance : α

variable {α : Type*} [LinearOrderedField α]

/-- App.py lines 114-119 (`monthly_payment`). -/
def monthly_payment (P r : α) (n : ℕ) : α :=
  if n = 0 then 0
  else if r = 0 then P / (n : α)
  else P * (r * (1 + r) ^ n) / ((1 + r) ^ n - 1)

/-- The loop body of app.py lines 130-148.  The first argument of the
recursion is the number of loop iterations still allowed (`total_months`
minus the iterations already done), `m` is the 1-based month counter and
`balance0` the running balance entering the iteration.  The `break` on
line 148 fires when the post-deduction balance is `≤ 0.0001`. -/
def scheduleAux (r Pe : α) : ℕ → ℕ → α → List (Entry α)
  | 0, _, _ => []
  | fuel + 1, m, balance0 =>
    let interest0 := balance0 * r
    let principal0 := min balance0 (Pe - interest0)
    let principal_paid := if r = 0 then min balance0 Pe else principal0
    let interest := if r = 0 then 0 else interest0
    let balance := balance0 - principal_paid
    let e : Entry α :=
      { month := m
        payment := if balance > 0 then Pe else principal_paid + interest
        principal := principal_paid
        interest := interest
        balance := max 0 balance }
    if balance ≤ 1 / 10000 then [e] else e :: scheduleAux r Pe fuel (m + 1) balance

/-- The full schedule loop, app.py lines 126-148: iterate over
`m in range(1, total_months + 1)` starting from the effective principal. -/
def schedule_rows (P r : α) (n : ℕ) (Pe : α) : List (Entry α) :=
  scheduleAux r Pe n 1 P

/-- The `principal_paid` computed by one loop iteration (app.py lines
131-135, including the `r = 0` override). -/
def pay (r Pe B : α) : α :=
  if r = 0 then min B Pe else min B (Pe - B * r)

/-- The balance update of one loop iteration (app.py line 137). -/
def step (r Pe B : α) : α :=
  B - pay r Pe B

/-- The row recorded by one loop iteration (app.py lines 140-146) as a
function of the entering balance. -/
def entryOf (r Pe : α) (m : ℕ) (B : α) : Entry α :=
  { month := m
    payment := if step r Pe B > 0 then Pe else pay r Pe B + (if r = 0 then 0 else B * r)
    principal := pay r Pe B
    interest := if r = 0 then 0 else B * r
    balance := max 0 (step r Pe B) }

/-- Running (prefix) sums with accumulator `acc`: the model of pandas
`Series.cumsum` used on app.py lines 151-152. -/
def cumsumFrom (acc : α) : List α → List α
  | [] => []
  | x :: xs => (acc + x) :: cumsumFrom (acc + x) xs

/-- Pandas `Series.cumsum`. -/
def cumsum (l : List α) : List α :=
  cumsumFrom 0 l

/-- One row of `amort_df` after the cumulative columns are added
(app.py lines 150-152). -/
structure Row (α : Type*) where
  month : ℕ
  payment : α
  principal : α
  interest : α
  balance : α
  cum_interest : α
  cum_principal : α

/-- App.py lines 150-152: build `amort_df` from the schedule rows and
attach the two cumulative-sum columns. -/
def amort_table (P r : α) (n : ℕ) (Pe : α) : List (Row α) :=
  let rows := schedule_rows P r n Pe
  let cum_int := cumsum (List.map Entry.interest rows)
  let cum_prin := cumsum (List.map Entry.principal rows)
  List.map
    (fun p =>
      { month := p.1.month
        payment := p.1.payment
        principal := p.1.principal
        interest := p.1.interest
        balance := p.1.balance
        cum_interest := p.2.1
        cum_principal := p.2.2 })
    (List.zip rows (List.zip cum_int cum_prin))

/-- Round-half-to-even to an integer (the rounding used by numpy/pandas
`round`, applied exactly over `ℚ`). -/
def round_half_even (y : ℚ) : ℤ :=
  let f := ⌊y⌋
  let frac := y - f
  if frac < 1 / 2 then f
  else if 1 / 2 < frac then f + 1
  else if f % 2 = 0 then f else f + 1

/-- Rounding to 2 decimal places, pandas `df.round(2)` on one value. -/
def round2 (x : ℚ) : ℚ :=
  (round_half_even (x * 100) : ℚ) / 100

/-- Pandas `df.round(2)` applied to one row of `amort_df` (the integer
`Month` column is unchanged by `round`). -/
def round_row (row : Row ℚ) : Row ℚ :=
  { row with
    payment := round2 row.payment
    principal := round2 row.principal
    interest := round2 row.interest
    balance := round2 row.balance
    cum_interest := round2 row.cum_interest
    cum_principal := round2 row.cum_principal }

/-- App.py lines 159-163: `display_df = amort_df.round(2)` when rounding
is requested, else `display_df = amort_df.copy()`. -/
def display_table (P r : ℚ) (n : ℕ) (Pe : ℚ) (rounding : Bool) : List (Row ℚ) :=
  if rounding then List.map round_row (amort_table P r n Pe) else amort_table P r n Pe

/-- The two tables the app holds after line 163: the full-precision
`amort_df` and the display view `display_df`. -/
structure AppOutputs where
  amort : List (Row ℚ)
  display : List (Row ℚ)

/-- The computation performed after the input gate: full-precision table
plus display view. -/
def app_outputs (P r : ℚ) (n : ℕ) (Pe : ℚ) (rounding : Bool) : AppOutputs :=
  { amort := amort_table P r n Pe
    display := display_table P r n Pe rounding }

/-- App.py line 56: `effective_principal = max(0.0, principal - deposit)`. -/
def effective_principal (principal deposit : ℚ) : ℚ :=
  max 0 (principal - deposit)

/-- App.py lines 94-96 and the pipeline after them: if the effective
principal is `≤ 0` the app shows an error and calls `st.stop()`, so no
schedule, chart or export is produced; otherwise the engine runs.  The
periodic rate `r` is the already-converted monthly rate. -/
def run_app (principal deposit r : ℚ) (n : ℕ) (extra : ℚ) (rounding : Bool) :
    Except String AppOutputs :=
  if effective_principal principal deposit ≤ 0 then
    Except.error "Deposit covers the loan amount. Adjust deposit or principal."
  else
    let P := effective_principal principal deposit
    Except.ok (app_outputs P r n (monthly_payment P r n + extra) rounding)

/-- The whole calculation pipeline of app.py lines 98-148 as run for a
chosen compounding frequency: rate conversion, payment formula with
extra payment, then the schedule loop over `total_months` periods. -/
noncomputable def app_schedule (interest_rate : ℝ) (compounding : Compounding)
    (duration_years : ℕ) (eff_principal extra_payment : ℝ) : List (Entry ℝ) :=
  schedule_rows eff_principal (monthly_rate interest_rate compounding)
    (total_months duration_years)
    (monthly_payment eff_principal (monthly_rate interest_rate compounding)
      (total_months duration_years) + extra_payment)

/-- The same pipeline expressed as a function of the converted periodic
rate alone, over `duration_years * 12` periods. -/
noncomputable def rate_based_schedule (r : ℝ) (duration_years : ℕ)
    (eff_principal extra_payment : ℝ) : List (Entry ℝ) :=
  schedule_rows eff_principal r (duration_years * 12)
    (monthly_payment eff_principal r (duration_years * 12) + extra_payment)

/-- The exact (uncapped) remaining balance after `j` periods when a level
payment `Q` is applied to principal `P` at periodic rate `r`; proof
artifact for the payoff and underpayment claims. -/
def idealBalance (P r Q : α) (j : ℕ) : α :=
  P * (1 + r) ^ j - Q * (((1 + r) ^ j - 1) / r)

/-- A default `Entry`, used with `List.getD`. -/
def blank_entry : Entry α :=
  { month := 0, payment := 0, principal := 0, interest := 0, balance := 0 }

/-- A default `Row`, used with `List.getD`. -/
def blank_row : Row α :=
  { month := 0, payment := 0, principal := 0, interest := 0, balance := 0
    cum_interest := 0, cum_principal := 0 }

/- ------------------------------------------------------------------ -/
/- Helper lemmas about the loop.                                       -/
/- ------------------------------------------------------------------ -/

lemma scheduleAux_succ (r Pe : α) (fuel m : ℕ) (B : α) :
    scheduleAux r Pe (fuel + 1) m B =
      if step r Pe B ≤ 1 / 10000 then [entryOf r Pe m B]
      else entryOf r Pe m B :: scheduleAux r Pe fuel (m + 1) (step r Pe B) := by
  simp only [scheduleAux, entryOf, step, pay]

lemma scheduleAux_of_ne (r Pe : α) (n m : ℕ) (B : α) (hn : n ≠ 0) :
    scheduleAux r Pe n m B =
      if step r Pe B ≤ 1 / 10000 then [entryOf r Pe m B]
      else entryOf r Pe m B :: scheduleAux r Pe (n - 1) (m + 1) (step r Pe B) := by
  obtain ⟨k, rfl⟩ := Nat.exists_eq_succ_of_ne_zero hn
  simp [scheduleAux_succ]

lemma getD_cons_of_ne {β : Type*} {l : List β} {a d : β} {n : ℕ} (hn : n ≠ 0) :
    (a :: l).getD n d = l.getD (n - 1) d := by
  obtain ⟨k, rfl⟩ := Nat.exists_eq_succ_of_ne_zero hn
  simp

lemma take_cons_of_ne {β : Type*} {l : List β} {a : β} {n : ℕ} (hn : n ≠ 0) :
    (a :: l).take n = a :: l.take (n - 1) := by
  obtain ⟨k, rfl⟩ := Nat.exists_eq_succ_of_ne_zero hn
  simp

lemma getLast?_cons_of_ne_nil {β : Type*} {l : List β} (a : β) (h : l ≠ []) :
    (a :: l).getLast? = l.getLast? := by
  cases l with
  | nil => exact absurd rfl h
  | cons x xs => simp

lemma scheduleAux_length_le (r Pe : α) :
    ∀ (k m : ℕ) (B : α), (scheduleAux r Pe k m B).length ≤ k := by
  intro k
  induction k with
  | zero => intro m B; simp [scheduleAux]
  | succ k ih =>
    intro m B
    rw [scheduleAux_succ]
    split
    · simp
    · simpa using ih (m + 1) (step r Pe B)

lemma scheduleAux_ne_nil (r Pe : α) (k m : ℕ) (B : α) (hk : k ≠ 0) :
    scheduleAux r Pe k m B ≠ [] := by
  obtain ⟨j, rfl⟩ := Nat.exists_eq_succ_of_ne_zero hk
  rw [scheduleAux_succ]
  split <;> simp

lemma scheduleAux_balance_nonneg (r Pe : α) :
    ∀ (k m : ℕ) (B : α), ∀ e ∈ scheduleAux r Pe k m B, 0 ≤ e.balance := by
  intro k
  induction k with
  | zero => intro m B; simp [scheduleAux]
  | succ k ih =>
    intro m B e he
    rw [scheduleAux_succ] at he
    have hbal : (0 : α) ≤ (entryOf r Pe m B).balance := le_max_left _ _
    rcases (by split at he <;> simp_all :
        e = entryOf r Pe m B ∨ e ∈ scheduleAux r Pe k (m + 1) (step r Pe B)) with h | h
    · rw [h]; exact hbal
    · exact ih (m + 1) (step r Pe B) e h

lemma pay_le_left (r Pe B : α) : pay r Pe B ≤ B := by
  unfold pay
  split <;> exact min_le_left _ _

lemma step_nonneg (r Pe B : α) : 0 ≤ step r Pe B := by
  have := pay_le_left r Pe B
  unfold step
  linarith

lemma pay_nonneg (r Pe B : α) (hPe : 0 ≤ Pe) (hB : 0 ≤ B)
    (hcov : B * r ≤ Pe) : 0 ≤ pay r Pe B := by
  unfold pay
  split
  · exact le_min hB hPe
  · exact le_min hB (sub_nonneg.mpr hcov)

lemma entryOf_balance (r Pe : α) (m : ℕ) (B : α) :
    (entryOf r Pe m B).balance = max 0 (step r Pe B) := rfl

lemma chain_balances (r Pe : α) (hr : 0 ≤ r) (hPe : 0 ≤ Pe) :
    ∀ (k m : ℕ) (B : α), 0 ≤ B → B * r ≤ Pe →
      List.Chain (· ≥ ·) B (List.map Entry.balance (scheduleAux r Pe k m B)) := by
  intro k
  induction k with
  | zero => intro m B _ _; simp [scheduleAux]
  | succ k ih =>
    intro m B hB hcov
    have hpay : 0 ≤ pay r Pe B := pay_nonneg r Pe B hPe hB hcov
    have hpayB : pay r Pe B ≤ B := pay_le_left r Pe B
    have hstep0 : 0 ≤ step r Pe B := step_nonneg r Pe B
    have hstepB : step r Pe B ≤ B := by unfold step; linarith
    have hbal : (entryOf r Pe m B).balance = step r Pe B := by
      rw [entryOf_balance]; exact max_eq_right hstep0
    have hcov' : step r Pe B * r ≤ Pe :=
      le_trans (mul_le_mul_of_nonneg_right hstepB hr) hcov
    rw [scheduleAux_succ]
    split
    · simp only [List.map_cons, List.map_nil]
      exact List.Chain.cons (by rw [hbal]; exact hstepB) List.Chain.nil
    · simp only [List.map_cons]
      exact List.Chain.cons (by rw [hbal]; exact hstepB)
        (by rw [hbal]; exact ih (m + 1) (step r Pe B) hstep0 hcov')

lemma eps_lt_balance_of_not_last (r Pe : α) :
    ∀ (k m : ℕ) (B : α) (i : ℕ), i + 1 < (scheduleAux r Pe k m B).length →
      1 / 10000 < ((scheduleAux r Pe k m B).getD i blank_entry).balance := by
  intro k
  induction k with
  | zero => intro m B i h; simp [scheduleAux] at h
  | succ k ih =>
    intro m B i h
    rw [scheduleAux_succ] at h ⊢
    by_cases hbr : step r Pe B ≤ 1 / 10000
    · rw [if_pos hbr] at h
      simp at h
    · rw [if_neg hbr] at h ⊢
      cases i with
      | zero =>
        rw [List.getD_cons_zero, entryOf_balance]
        exact lt_of_lt_of_le (not_le.mp hbr) (le_max_right 0 _)
      | succ i =>
        rw [List.getD_cons_succ]
        exact ih (m + 1) (step r Pe B) i (by simpa using h)

lemma getLast_balance_le (r Pe : α) :
    ∀ (k m : ℕ) (B : α), k ≠ 0 → (step r Pe)^[k] B ≤ 1 / 10000 →
      ∀ b ∈ (scheduleAux r Pe k m B).getLast?, b.balance ≤ 1 / 10000 := by
  intro k
  induction k with
  | zero => intro m B h; exact absurd rfl h
  | succ k ih =>
    intro m B _ hit b hb
    rw [scheduleAux_succ] at hb
    by_cases hbr : step r Pe B ≤ 1 / 10000
    · rw [if_pos hbr] at hb
      rw [List.getLast?_singleton] at hb
      have hb' : entryOf r Pe m B = b := by simpa using hb
      rcases hb' with rfl
      rw [entryOf_balance]
      exact max_le (by norm_num) hbr
    · rw [if_neg hbr] at hb
      rcases Nat.eq_zero_or_pos k with hk | hk
      · subst hk
        rw [Function.iterate_one] at hit
        exact absurd hit hbr
      · have hk0 : k ≠ 0 := Nat.pos_iff_ne_zero.mp hk
        rw [getLast?_cons_of_ne_nil _ (scheduleAux_ne_nil r Pe k (m + 1) (step r Pe B) hk0)] at hb
        exact ih (m + 1) (step r Pe B) hk0
          (by rw [← Function.iterate_succ_apply]; exact hit) b hb

lemma scheduleAux_full_run (r Pe : α) :
    ∀ (k m : ℕ) (B : α),
      (∀ j, 1 ≤ j → j < k → 1 / 10000 < (step r Pe)^[j] B) →
      (scheduleAux r Pe k m B).length = k ∧
      ∀ b ∈ (scheduleAux r Pe k m B).getLast?, b.balance = max 0 ((step r Pe)^[k] B) := by
  intro k
  induction k with
  | zero => intro m B _; refine ⟨by simp [scheduleAux], by simp [scheduleAux]⟩
  | succ k ih =>
    intro m B hyp
    rw [scheduleAux_succ]
    rcases Nat.eq_zero_or_pos k with hk | hk
    · subst hk
      have hone : ∀ b ∈ [entryOf r Pe m B].getLast?, b.balance = max 0 ((step r Pe)^[1] B) := by
        intro b hb
        rw [List.getLast?_singleton] at hb
        have hb' : entryOf r Pe m B = b := by simpa using hb
        rcases hb' with rfl
        rw [entryOf_balance, Function.iterate_one]
      split
      · exact ⟨by simp, hone⟩
      · rw [show scheduleAux r Pe 0 (m + 1) (step r Pe B) = [] from rfl]
        exact ⟨by simp, hone⟩
    · have h1 : 1 / 10000 < step r Pe B := by
        simpa using hyp 1 le_rfl (by omega)
      rw [if_neg (not_le.mpr h1)]
      have ihres := ih (m + 1) (step r Pe B) (fun j hj1 hjk => by
        have := hyp (j + 1) (by omega) (by omega)
        rwa [Function.iterate_succ_apply] at this)
      refine ⟨by simp [ihres.1], ?_⟩
      intro b hb
      have hne : scheduleAux r Pe k (m + 1) (step r Pe B) ≠ [] :=
        scheduleAux_ne_nil r Pe k (m + 1) (step r Pe B) (Nat.pos_iff_ne_zero.mp hk)
      rw [getLast?_cons_of_ne_nil _ hne] at hb
      have := ihres.2 b hb
      rwa [← Function.iterate_succ_apply] at this

lemma cumsumFrom_length : ∀ (l : List α) (acc : α), (cumsumFrom acc l).length = l.length := by
  intro l
  induction l with
  | nil => intro acc; simp [cumsumFrom]
  | cons x xs ih => intro acc; simp [cumsumFrom, ih]

lemma cumsumFrom_getElem :
    ∀ (l : List α) (acc : α) (i : ℕ) (h : i < (cumsumFrom acc l).length),
      (cumsumFrom acc l)[i] = acc + (l.take (i + 1)).sum := by
  intro l
  induction l with
  | nil => intro acc i h; simp [cumsumFrom] at h
  | cons x xs ih =>
    intro acc i h
    cases i with
    | zero => simp [cumsumFrom]
    | succ i =>
      have h2 : i < (cumsumFrom (acc + x) xs).length := by simpa [cumsumFrom] using h
      simp only [cumsumFrom, List.getElem_cons_succ]
      rw [ih (acc + x) i h2, List.take_succ_cons, List.sum_cons, add_assoc]

lemma amort_table_length (P r : α) (n : ℕ) (Pe : α) :
    (amort_table P r n Pe).length = (schedule_rows P r n Pe).length := by
  simp [amort_table, cumsum, cumsumFrom_length]

/- ------------------------------------------------------------------ -/
/- Claim theorems.                                                     -/
/- ------------------------------------------------------------------ -/

/-- C2, counterexample.  At effectivePrincipal = 100, periodic rate r = 1,
n = 2 periods and Pe = 50 (all satisfying the claim's hypotheses:
principal > 0, r ≥ 0, n ≥ 1, Pe ≥ 0), the payment does not even cover
the interest 100·1 = 100, the loop's `principal_paid = min(B, Pe - interest)`
is negative and the recorded endingBalance sequence is [150, 250] —
strictly increasing, refuting monotone non-increase as claimed. -/
theorem balance_monotonicity_counterexample :
    (0 : ℚ) < 100 ∧ (0 : ℚ) ≤ 1 ∧ (1 : ℕ) ≤ 2 ∧ (0 : ℚ) ≤ 50 ∧
    List.map Entry.balance (schedule_rows (100 : ℚ) 1 2 50) = [150, 250] ∧
    ¬ List.Chain' (· ≥ ·) (List.map Entry.balance (schedule_rows (100 : ℚ) 1 2 50)) := by
  refine ⟨by norm_num, by norm_num, by norm_num, by norm_num, ?_, ?_⟩ <;>
    norm_num [schedule_rows, scheduleAux, scheduleAux_of_ne, step, pay, entryOf,
      List.chain'_cons]

/-- C2, amended.  Every recorded endingBalance is ≥ 0 (this part holds for
all inputs, the loop records `max(0.0, balance)`), and the endingBalance
sequence is monotonically non-increasing provided the periodic payment
Pe additionally covers the first period's interest,
`effectivePrincipal * r ≤ Pe` (the claim as frozen omits this hypothesis
and is refuted by `balance_monotonicity_counterexample`). -/
theorem balances_nonneg_and_monotone (P r Pe : ℚ) (n : ℕ)
    (hP : 0 < P) (hr : 0 ≤ r) (hPe : 0 ≤ Pe) :
    (∀ e ∈ schedule_rows P r n Pe, 0 ≤ e.balance) ∧
    (P * r ≤ Pe →
      List.Chain' (· ≥ ·) (List.map Entry.balance (schedule_rows P r n Pe))) := by
  constructor
  · exact scheduleAux_balance_nonneg r Pe n 1 P
  · intro hcov
    have h : List.Chain (· ≥ ·) P (List.map Entry.balance (scheduleAux r Pe n 1 P)) :=
      chain_balances r Pe hr hPe n 1 P hP.le hcov
    exact (show List.Chain' (· ≥ ·)
      (P :: List.map Entry.balance (scheduleAux r Pe n 1 P)) from h).tail

/-- C2, witness for the amended theorem at P = 1200, r = 0, n = 12, Pe = 100. -/
theorem balances_nonneg_and_monotone_witness :
    (∀ e ∈ schedule_rows (1200 : ℚ) 0 12 100, 0 ≤ e.balance) ∧
    List.Chain' (· ≥ ·) (List.map Entry.balance (schedule_rows (1200 : ℚ) 0 12 100)) :=
  ⟨(balances_nonneg_and_monotone 1200 0 100 12 (by norm_num) le_rfl (by norm_num)).1,
   (balances_nonneg_and_monotone 1200 0 100 12 (by norm_num) le_rfl (by norm_num)).2
     (by norm_num)⟩

/-- C4: in `amort_df`, the cumulative-interest column at row index `i`
equals the sum of the interest column over rows 0..i, and likewise for the
cumulative-principal column (pandas `cumsum`, app.py lines 150-152). -/
theorem cumulative_columns_are_prefix_sums (P r Pe : ℚ) (n i : ℕ)
    (h : i < (amort_table P r n Pe).length) :
    ((amort_table P r n Pe).getD i blank_row).cum_interest
        = (List.map Entry.interest ((schedule_rows P r n Pe).take (i + 1))).sum ∧
    ((amort_table P r n Pe).getD i blank_row).cum_principal
        = (List.map Entry.principal ((schedule_rows P r n Pe).take (i + 1))).sum := by
  have hi : i < (schedule_rows P r n Pe).length := by
    rwa [amort_table_length] at h
  have hci : i < (cumsumFrom 0 (List.map Entry.interest (schedule_rows P r n Pe))).length := by
    rw [cumsumFrom_length, List.length_map]; exact hi
  have hcp : i < (cumsumFrom 0 (List.map Entry.principal (schedule_rows P r n Pe))).length := by
    rw [cumsumFrom_length, List.length_map]; exact hi
  rw [List.getD_eq_getElem _ _ h]
  have hmain : (amort_table P r n Pe)[i] =
      { month := ((schedule_rows P r n Pe)[i]).month
        payment := ((schedule_rows P r n Pe)[i]).payment
        principal := ((schedule_rows P r n Pe)[i]).principal
        interest := ((schedule_rows P r n Pe)[i]).interest
        balance := ((schedule_rows P r n Pe)[i]).balance
        cum_interest :=
          (cumsumFrom 0 (List.map Entry.interest (schedule_rows P r n Pe)))[i]
        cum_principal :=
          (cumsumFrom 0 (List.map Entry.principal (schedule_rows P r n Pe)))[i] } := by
    simp [amort_table, cumsum, List.getElem_zip]
  rw [hmain]
  constructor
  · show (cumsumFrom 0 (List.map Entry.interest (schedule_rows P r n Pe)))[i] = _
    rw [cumsumFrom_getElem _ 0 i hci, zero_add, ← List.map_take]
  · show (cumsumFrom 0 (List.map Entry.principal (schedule_rows P r n Pe)))[i] = _
    rw [cumsumFrom_getElem _ 0 i hcp, zero_add, ← List.map_take]

/-- C4, witness at P = 1200, r = 0, n = 12, Pe = 100, row index i = 2. -/
theorem cumulative_columns_witness :
    ((amort_table (1200 : ℚ) 0 12 100).getD 2 blank_row).cum_interest
        = (List.map Entry.interest ((schedule_rows (1200 : ℚ) 0 12 100).take (2 + 1))).sum ∧
    ((amort_table (1200 : ℚ) 0 12 100).getD 2 blank_row).cum_principal
        = (List.map Entry.principal ((schedule_rows (1200 : ℚ) 0 12 100).take (2 + 1))).sum :=
  cumulative_columns_are_prefix_sums 1200 0 100 12 2
    (by rw [amort_table_length]
        norm_num [schedule_rows, scheduleAux, scheduleAux_of_ne, step, pay, entryOf])

/-- C5: with periodic rate r = 0, effectivePrincipal = 1200, n = 12 and
Pe = 100, the loop produces exactly 12 entries, each with
principalComponent = 100 and interestComponent = 0 (the explicit r = 0
override), and the final entry's endingBalance is 0. -/
theorem zero_rate_straight_line :
    (schedule_rows (1200 : ℚ) 0 12 100).length = 12 ∧
    (∀ e ∈ schedule_rows (1200 : ℚ) 0 12 100, e.principal = 100 ∧ e.interest = 0) ∧
    ∀ b ∈ (schedule_rows (1200 : ℚ) 0 12 100).getLast?, b.balance = 0 := by
  refine ⟨?_, ?_, ?_⟩ <;>
    norm_num [schedule_rows, scheduleAux, scheduleAux_of_ne, step, pay, entryOf]

/-- C6: the loop stops as soon as the running balance is ≤ 0.0001 after
the principal deduction: the sequence length is always ≤ n, and every
entry other than the last has a recorded endingBalance > 0.0001 (so the
length reaches n only if the balance stayed above the epsilon through
every earlier period). -/
theorem early_termination_at_epsilon (P r Pe : ℚ) (n : ℕ) :
    (schedule_rows P r n Pe).length ≤ n ∧
    ∀ i : ℕ, i + 1 < (schedule_rows P r n Pe).length →
      1 / 10000 < ((schedule_rows P r n Pe).getD i blank_entry).balance :=
  ⟨scheduleAux_length_le r Pe n 1 P, fun i h => eps_lt_balance_of_not_last r Pe n 1 P i h⟩

/-- C6, witness at P = 100, r = 1, n = 3, Pe = 0, entry index i = 0. -/
theorem early_termination_at_epsilon_witness :
    (schedule_rows (100 : ℚ) 1 3 0).length ≤ 3 ∧
    1 / 10000 < ((schedule_rows (100 : ℚ) 1 3 0).getD 0 blank_entry).balance :=
  ⟨(early_termination_at_epsilon 100 1 0 3).1,
   (early_termination_at_epsilon 100 1 0 3).2 0
     (by norm_num [schedule_rows, scheduleAux, scheduleAux_of_ne, step, pay, entryOf])⟩

/-- C8: output rounding is presentation-only.  The underlying table
(`amort_df`) is the same whether or not rounding is requested — it is
always exactly `amort_table`, computed before and independently of the
flag, so rounding never feeds back into any period's computation — and
the display view is the pure elementwise 2-decimal rounding of the
full-precision table (or the table itself when rounding is off). -/
theorem rounding_is_display_only (P r Pe : ℚ) (n : ℕ) (b : Bool) :
    (app_outputs P r n Pe b).amort = amort_table P r n Pe ∧
    (app_outputs P r n Pe true).amort = (app_outputs P r n Pe false).amort ∧
    (app_outputs P r n Pe true).display = List.map round_row (amort_table P r n Pe) ∧
    (app_outputs P r n Pe false).display = amort_table P r n Pe := by
  refine ⟨rfl, rfl, ?_, ?_⟩ <;> simp [app_outputs, display_table]

/-- C9: the effectivePrincipal gate of app.py lines 94-96.  If
effectivePrincipal ≤ 0 the app stops with the corrective error message
and produces no schedule output; if effectivePrincipal > 0 the error
branch is not taken and the full pipeline output is produced. -/
theorem effective_principal_gate (principal deposit r extra : ℚ) (n : ℕ) (b : Bool) :
    (effective_principal principal deposit ≤ 0 →
      run_app principal deposit r n extra b =
        Except.error "Deposit covers the loan amount. Adjust deposit or principal.") ∧
    (0 < effective_principal principal deposit →
      run_app principal deposit r n extra b =
        Except.ok (app_outputs (effective_principal principal deposit) r n
          (monthly_payment (effective_principal principal deposit) r n + extra) b)) := by
  constructor
  · intro h
    rw [run_app, if_pos h]
  · intro h
    rw [run_app, if_neg (not_le.mpr h)]

/-- C9, witness: deposit 200 ≥ principal 100 is refused with the error
message; principal 300 > deposit 100 is accepted and produces the
pipeline output. -/
theorem effective_principal_gate_witness :
    run_app 100 200 (1 / 10) 12 0 true =
      Except.error "Deposit covers the loan amount. Adjust deposit or principal." ∧
    run_app 300 100 (1 / 10) 12 0 true =
      Except.ok (app_outputs (effective_principal 300 100) (1 / 10) 12
        (monthly_payment (effective_principal 300 100) (1 / 10) 12 + 0) true) :=
  ⟨(effective_principal_gate 100 200 (1 / 10) 0 12 true).1
     (by norm_num [effective_principal, max_le_iff]),
   (effective_principal_gate 300 100 (1 / 10) 0 12 true).2
     (by norm_num [effective_principal, lt_max_iff])⟩

lemma step_eq_max (r Pe B : α) (hr : r ≠ 0) :
    step r Pe B = max 0 (B * (1 + r) - Pe) := by
  rw [step, pay, if_neg hr]
  rcases le_total B (Pe - B * r) with h | h
  · rw [min_eq_left h]
    have h2 : B * (1 + r) - Pe ≤ 0 := by
      have e2 : B * (1 + r) - Pe = B - (Pe - B * r) := by ring
      rw [e2]
      linarith
    rw [sub_self, max_eq_left h2]
  · rw [min_eq_right h]
    have h0 : 0 ≤ B - (Pe - B * r) := sub_nonneg.mpr h
    have e : B - (Pe - B * r) = B * (1 + r) - Pe := by ring
    rw [e] at h0
    rw [e, max_eq_right h0]

lemma idealBalance_zero (P r Q : α) : idealBalance P r Q 0 = P := by
  simp [idealBalance]

lemma idealBalance_succ (P r Q : α) (hr : r ≠ 0) (j : ℕ) :
    idealBalance P r Q (j + 1) = idealBalance P r Q j * (1 + r) - Q := by
  field_simp [idealBalance]
  ring

lemma annuity_ideal_eq (P r : α) (n : ℕ) (hr : 0 < r) (hn : n ≠ 0) (j : ℕ) :
    idealBalance P r (monthly_payment P r n) j
      = P * (((1 + r) ^ n - (1 + r) ^ j) / ((1 + r) ^ n - 1)) := by
  have hr0 : r ≠ 0 := ne_of_gt hr
  have h1 : (1 : α) < (1 + r) ^ n := one_lt_pow₀ (by linarith) hn
  have hD : (1 + r) ^ n - 1 ≠ 0 := ne_of_gt (by linarith)
  rw [monthly_payment, if_neg hn, if_neg hr0, idealBalance]
  field_simp
  ring

lemma annuity_ideal_nonneg (P r : α) (n : ℕ) (hr : 0 < r) (hP : 0 < P) (hn : n ≠ 0)
    {j : ℕ} (hj : j ≤ n) :
    0 ≤ idealBalance P r (monthly_payment P r n) j := by
  rw [annuity_ideal_eq P r n hr hn j]
  have h1 : (1 : α) < (1 + r) ^ n := one_lt_pow₀ (by linarith) hn
  have h2 : (1 + r) ^ j ≤ (1 + r) ^ n := pow_le_pow_right₀ (by linarith) hj
  exact mul_nonneg hP.le (div_nonneg (by linarith) (by linarith))

lemma iterate_le_annuity_ideal (P r Pe : α) (n : ℕ) (hr : 0 < r) (hP : 0 < P)
    (hn : n ≠ 0) (hPe : monthly_payment P r n ≤ Pe) :
    ∀ j, j ≤ n → (step r Pe)^[j] P ≤ idealBalance P r (monthly_payment P r n) j := by
  intro j
  induction j with
  | zero =>
    intro _
    rw [Function.iterate_zero_apply, idealBalance_zero]
  | succ j ih =>
    intro hj
    have hj2 : j ≤ n := Nat.le_of_succ_le hj
    rw [Function.iterate_succ_apply', step_eq_max r Pe _ (ne_of_gt hr)]
    have hmul : (step r Pe)^[j] P * (1 + r) - Pe
        ≤ idealBalance P r (monthly_payment P r n) j * (1 + r) - monthly_payment P r n := by
      have h3 := mul_le_mul_of_nonneg_right (ih hj2) (by linarith : (0 : α) ≤ 1 + r)
      linarith
    calc max 0 ((step r Pe)^[j] P * (1 + r) - Pe)
        ≤ max 0 (idealBalance P r (monthly_payment P r n) j * (1 + r)
            - monthly_payment P r n) := max_le_max le_rfl hmul
      _ = max 0 (idealBalance P r (monthly_payment P r n) (j + 1)) := by
          rw [idealBalance_succ P r _ (ne_of_gt hr) j]
      _ = idealBalance P r (monthly_payment P r n) (j + 1) :=
          max_eq_right (annuity_ideal_nonneg P r n hr hP hn hj)

lemma iterate_n_nonpos (P r Pe : α) (n : ℕ) (hr : 0 < r) (hP : 0 < P) (hn : n ≠ 0)
    (hPe : monthly_payment P r n ≤ Pe) : (step r Pe)^[n] P ≤ 0 := by
  have h := iterate_le_annuity_ideal P r Pe n hr hP hn hPe n le_rfl
  rw [annuity_ideal_eq P r n hr hn n] at h
  simpa using h

lemma pe_ideal_pos (P r Pe : α) (n : ℕ) (hr : 0 < r) (hP : 0 < P) (hn : n ≠ 0)
    (hlt : Pe < monthly_payment P r n) :
    ∀ j, j ≤ n → 0 < idealBalance P r Pe j := by
  intro j hj
  rcases Nat.eq_zero_or_pos j with h0 | hpos
  · subst h0
    rw [idealBalance_zero]
    exact hP
  · have hj0 : j ≠ 0 := Nat.pos_iff_ne_zero.mp hpos
    have hs : 0 < ((1 + r) ^ j - 1) / r := by
      apply div_pos _ hr
      have := one_lt_pow₀ (show (1 : α) < 1 + r by linarith) hj0
      linarith
    have hnn : 0 ≤ idealBalance P r (monthly_payment P r n) j :=
      annuity_ideal_nonneg P r n hr hP hn hj
    have hmono : idealBalance P r (monthly_payment P r n) j < idealBalance P r Pe j := by
      rw [idealBalance, idealBalance]
      have := mul_lt_mul_of_pos_right hlt hs
      linarith
    linarith

lemma pe_iterate_eq (P r Pe : α) (n : ℕ) (hr : 0 < r) (hP : 0 < P) (hn : n ≠ 0)
    (hlt : Pe < monthly_payment P r n) :
    ∀ j, j ≤ n → (step r Pe)^[j] P = idealBalance P r Pe j := by
  intro j
  induction j with
  | zero =>
    intro _
    rw [Function.iterate_zero_apply, idealBalance_zero]
  | succ j ih =>
    intro hj
    rw [Function.iterate_succ_apply', ih (Nat.le_of_succ_le hj),
      step_eq_max r Pe _ (ne_of_gt hr), ← idealBalance_succ P r Pe (ne_of_gt hr) j]
    exact max_eq_right (pe_ideal_pos P r Pe n hr hP hn hlt (j + 1) hj).le

lemma pe_ideal_gt_eps (P r Pe : α) (n : ℕ) (hr : 0 < r) (hP : 0 < P) (hn : n ≠ 0)
    (hlt : Pe < monthly_payment P r n) (hfloor : (1 + r) / 10000 ≤ Pe) :
    ∀ j, j < n → 1 / 10000 < idealBalance P r Pe j := by
  intro j hj
  by_contra hle
  push_neg at hle
  have hnext : idealBalance P r Pe (j + 1) ≤ 0 := by
    rw [idealBalance_succ P r Pe (ne_of_gt hr) j]
    have h1 : idealBalance P r Pe j * (1 + r) ≤ 1 / 10000 * (1 + r) :=
      mul_le_mul_of_nonneg_right hle (by linarith)
    have h2 : (1 / 10000 : α) * (1 + r) = (1 + r) / 10000 := by ring
    linarith
  exact absurd hnext (not_le.mpr (pe_ideal_pos P r Pe n hr hP hn hlt (j + 1) hj))

/-- C3: the payoff property.  For r > 0, n > 0, principal > 0 and a
periodic payment Pe at least the annuity payment `monthly_payment P r n`,
the loop produces a nonempty schedule of at most n entries whose final
recorded endingBalance lies in [0, 0.0001] (zero within the termination
epsilon). -/
theorem payoff_within_epsilon (P r Pe : ℚ) (n : ℕ)
    (hr : 0 < r) (hn : 0 < n) (hP : 0 < P)
    (hPe : monthly_payment P r n ≤ Pe) :
    schedule_rows P r n Pe ≠ [] ∧
    (schedule_rows P r n Pe).length ≤ n ∧
    ∀ b ∈ (schedule_rows P r n Pe).getLast?, 0 ≤ b.balance ∧ b.balance ≤ 1 / 10000 := by
  have hn0 : n ≠ 0 := Nat.pos_iff_ne_zero.mp hn
  have hfin : (step r Pe)^[n] P ≤ 1 / 10000 :=
    le_trans (iterate_n_nonpos P r Pe n hr hP hn0 hPe) (by norm_num)
  refine ⟨scheduleAux_ne_nil r Pe n 1 P hn0, scheduleAux_length_le r Pe n 1 P, ?_⟩
  intro b hb
  refine ⟨?_, getLast_balance_le r Pe n 1 P hn0 hfin b hb⟩
  have hmem : b ∈ schedule_rows P r n Pe := by
    rcases List.mem_getLast?_eq_getLast hb with ⟨hne, rfl⟩
    exact List.getLast_mem hne
  exact scheduleAux_balance_nonneg r Pe n 1 P b hmem

/-- C3, witness at P = 100, r = 1, n = 1, Pe = 200 = monthly_payment. -/
theorem payoff_within_epsilon_witness :
    schedule_rows (100 : ℚ) 1 1 200 ≠ [] ∧
    (schedule_rows (100 : ℚ) 1 1 200).length ≤ 1 ∧
    ∀ b ∈ (schedule_rows (100 : ℚ) 1 1 200).getLast?, 0 ≤ b.balance ∧ b.balance ≤ 1 / 10000 :=
  payoff_within_epsilon 100 1 200 1 (by norm_num) (by norm_num) (by norm_num)
    (by norm_num [monthly_payment])

/-- C7, counterexample.  At effectivePrincipal = 1/100000, r = 1, n = 2,
Pe = 0 (which satisfies every hypothesis of the claim: r > 0,
effectivePrincipal > 0 and Pe below the required minimum payment), the
first iteration leaves the balance at 2/100000 ≤ 0.0001, the epsilon
break fires, and the schedule has 1 entry instead of the claimed n = 2. -/
theorem underpayment_early_break_counterexample :
    (0 : ℚ) < 1 / 100000 ∧ (0 : ℚ) < 1 ∧ (0 : ℕ) < 2 ∧
    (0 : ℚ) < monthly_payment ((1 : ℚ) / 100000) 1 2 ∧
    (schedule_rows ((1 : ℚ) / 100000) 1 2 0).length = 1 := by
  refine ⟨by norm_num, by norm_num, by norm_num, ?_, ?_⟩ <;>
    norm_num [monthly_payment, schedule_rows, scheduleAux, scheduleAux_of_ne, step,
      pay, entryOf]

/-- C7, amended.  If additionally Pe is at least `(1 + r) * 0.0001` (so
the epsilon break cannot fire before period n; the frozen claim fails for
tiny balances, see `underpayment_early_break_counterexample`), then a
payment Pe below the required minimum `monthly_payment P r n` makes the
loop run to exactly n entries with the final endingBalance still > 0;
no error path exists and the downstream aggregate table is still built,
with the same n rows. -/
theorem underpayment_full_term (P r Pe : ℚ) (n : ℕ)
    (hr : 0 < r) (hn : 0 < n) (hP : 0 < P)
    (hlt : Pe < monthly_payment P r n) (hfloor : (1 + r) / 10000 ≤ Pe) :
    (schedule_rows P r n Pe).length = n ∧
    (amort_table P r n Pe).length = n ∧
    ∀ b ∈ (schedule_rows P r n Pe).getLast?, 0 < b.balance := by
  have hn0 : n ≠ 0 := Nat.pos_iff_ne_zero.mp hn
  have heq := pe_iterate_eq P r Pe n hr hP hn0 hlt
  have hfull := scheduleAux_full_run r Pe n 1 P (fun j hj1 hjn => by
    rw [heq j (le_of_lt hjn)]
    exact pe_ideal_gt_eps P r Pe n hr hP hn0 hlt hfloor j hjn)
  refine ⟨hfull.1, by rw [amort_table_length]; exact hfull.1, ?_⟩
  intro b hb
  have hbal := hfull.2 b hb
  rw [heq n le_rfl] at hbal
  have hpos := pe_ideal_pos P r Pe n hr hP hn0 hlt n le_rfl
  rw [hbal, max_eq_right hpos.le]
  exact hpos

/-- C7, witness for the amended theorem at P = 100, r = 1, n = 2,
Pe = 120 < 400/3 = monthly_payment. -/
theorem underpayment_full_term_witness :
    (schedule_rows (100 : ℚ) 1 2 120).length = 2 ∧
    (amort_table (100 : ℚ) 1 2 120).length = 2 ∧
    ∀ b ∈ (schedule_rows (100 : ℚ) 1 2 120).getLast?, 0 < b.balance :=
  underpayment_full_term 100 1 120 2 (by norm_num) (by norm_num) (by norm_num)
    (by norm_num [monthly_payment]) (by norm_num)

/-- C1: the Quarterly branch of the rate conversion does not satisfy the
specified conversion.  Python's right-associative `**` makes line 109
compute `(1+a) ** ((1/4) ** (1/3))`, so at annualRatePercent = 100 the
returned rate r has `(1+r)^12 = 2^(12·(1/4)^(1/3)) ≥ 4`, while the
specified monthly-equivalent of quarterly compounding demands
`(1+r)^12 = (1+1/4)^4 = 625/256 < 4`. -/
theorem quarterly_rate_breaks_spec_equation :
    (1 + monthly_rate 100 Compounding.Quarterly) ^ (12 : ℕ) ≠
      (1 + (100 / 100) / 4 : ℝ) ^ (4 : ℕ) := by
  have hmr : monthly_rate 100 Compounding.Quarterly
      = (2 : ℝ) ^ (((1 : ℝ) / 4) ^ ((1 : ℝ) / 3)) - 1 := by
    simp only [monthly_rate]
    norm_num
  have hbase : (1 : ℝ) + ((2 : ℝ) ^ (((1 : ℝ) / 4) ^ ((1 : ℝ) / 3)) - 1)
      = (2 : ℝ) ^ (((1 : ℝ) / 4) ^ ((1 : ℝ) / 3)) := by ring
  have hLHS : (1 + monthly_rate 100 Compounding.Quarterly) ^ (12 : ℕ)
      = (2 : ℝ) ^ ((((1 : ℝ) / 4) ^ ((1 : ℝ) / 3)) * 12) := by
    rw [hmr, hbase, ← Real.rpow_natCast ((2 : ℝ) ^ (((1 : ℝ) / 4) ^ ((1 : ℝ) / 3))) 12,
      ← Real.rpow_mul (by norm_num : (0 : ℝ) ≤ 2)]
    norm_num
  have hq16 : (1 / 6 : ℝ) ≤ ((1 : ℝ) / 4) ^ ((1 : ℝ) / 3) := by
    have h216 : ((1 : ℝ) / 216) ^ ((1 : ℝ) / 3) = 1 / 6 := by
      have h3 : ((1 : ℝ) / 216) = ((1 : ℝ) / 6) ^ ((3 : ℕ) : ℝ) := by
        rw [Real.rpow_natCast]
        norm_num
      rw [h3, ← Real.rpow_mul (by norm_num : (0 : ℝ) ≤ 1 / 6),
        show ((3 : ℕ) : ℝ) * ((1 : ℝ) / 3) = 1 by norm_num, Real.rpow_one]
    calc (1 / 6 : ℝ) = ((1 : ℝ) / 216) ^ ((1 : ℝ) / 3) := h216.symm
      _ ≤ ((1 : ℝ) / 4) ^ ((1 : ℝ) / 3) :=
          Real.rpow_le_rpow (by norm_num) (by norm_num) (by norm_num)
  have h2q : (4 : ℝ) ≤ (2 : ℝ) ^ ((((1 : ℝ) / 4) ^ ((1 : ℝ) / 3)) * 12) := by
    have hexp : ((2 : ℕ) : ℝ) ≤ (((1 : ℝ) / 4) ^ ((1 : ℝ) / 3)) * 12 := by
      push_cast
      linarith
    have hmono := Real.rpow_le_rpow_of_exponent_le (by norm_num : (1 : ℝ) ≤ 2) hexp
    rw [Real.rpow_natCast] at hmono
    norm_num at hmono
    exact hmono
  have hRHS : (1 + (100 / 100) / 4 : ℝ) ^ (4 : ℕ) = 625 / 256 := by norm_num
  rw [hLHS, hRHS]
  intro hcontra
  rw [hcontra] at h2q
  norm_num at h2q

/-- C10: the schedule is generated over exactly
`total_months = duration_years * 12` monthly periods for every
compounding frequency: the pipeline factors through the converted
monthly rate alone (`rate_based_schedule`), with the period count
`duration_years * 12` independent of the frequency (the
`periods_per_year` value never enters the payment or the loop), and the
schedule never exceeds `total_months` entries. -/
theorem compounding_affects_only_rate (interest_rate : ℝ) (c : Compounding)
    (duration_years : ℕ) (P extra : ℝ) :
    total_months duration_years = duration_years * 12 ∧
    app_schedule interest_rate c duration_years P extra =
      rate_based_schedule (monthly_rate interest_rate c) duration_years P extra ∧
    (app_schedule interest_rate c duration_years P extra).length ≤
      total_months duration_years :=
  ⟨rfl, rfl, scheduleAux_length_le _ _ _ _ _⟩

end LoanCalc
